import Mathlib

/-!
Shallow embedding of `polkadot/xcm/xcm-executor/src/traits/should_execute.rs`.

The Rust file defines three policy traits (`ShouldExecute`, `CheckSuspension`,
`DenyExecution`) and, via `impl_trait_for_tuples`, a chain combinator for each:
an ordered tuple of policies is evaluated left to right with short-circuit
semantics.  A variadic Rust tuple of trait implementors is embedded as a Lean
`List` of policy records; the `&mut` parameters (`instructions`,
`properties`) are embedded by explicit state threading, the by-value
`max_weight : Weight` and by-shared-reference `origin : &Location` as plain
read-only inputs.  `tracing::trace!` / `tracing::error!` calls are embedded as
emission of `TraceEvent` values collected in a list.

`Location`, `Instruction` and `XcmHash` are opaque to this file (no operation
of the source inspects them), so they are type parameters `Loc`, `Instr`,
`Hash`.  `Weight`'s two `u64` fields are modelled as `Nat`: the source performs
no arithmetic on them, so overflow can never matter here.
-/

/-- Two-dimensional weight, mirroring `Weight { ref_time: u64, proof_size: u64 }`. -/
structure Weight where
  ref_time : Nat
  proof_size : Nat
deriving Repr, DecidableEq

/-- The error type `frame_support::traits::ProcessMessageError`. -/
inductive ProcessMessageError where
  | BadFormat : ProcessMessageError
  | Corrupt : ProcessMessageError
  | Unsupported : ProcessMessageError
  | Overweight : Weight → ProcessMessageError
  | Yield : ProcessMessageError
  | StackLimitReached : ProcessMessageError
deriving Repr, DecidableEq

/-- Properties of an XCM message and its imminent execution
(struct `Properties` of the source). -/
structure Properties (Hash : Type) where
  weight_credit : Weight
  message_id : Option Hash
deriving Repr, DecidableEq

/-- Outcome of one policy trial (or of a chain without its trace): the returned
value together with the final contents of the two `&mut` parameters. -/
structure PolicyOutcome (Instr Hash R : Type) where
  result : R
  instructions : List Instr
  properties : Properties Hash
deriving Repr, DecidableEq

/-- One structured event emitted by a `tracing::trace!` / `tracing::error!`
call in the tuple combinators: target, level, the snapshots logged at that
point, the error (for a "did not pass barrier" event of the admission chain or
a denial event), the barrier's type name, and the message. -/
structure TraceEvent (Loc Instr Hash : Type) where
  target : String
  level : String
  origin : Loc
  instructions : List Instr
  max_weight : Weight
  properties : Properties Hash
  error : Option ProcessMessageError
  barrier : String
  message : String
deriving Repr, DecidableEq

/-- Result of an admission or denial chain: verdict, final state of the two
`&mut` parameters, and the trace events emitted during evaluation. -/
structure ChainOutcome (Loc Instr Hash R : Type) where
  result : R
  instructions : List Instr
  properties : Properties Hash
  trace : List (TraceEvent Loc Instr Hash)
deriving Repr, DecidableEq

/-- One element of a `ShouldExecute` tuple: its `core::any::type_name` (used
only by tracing) and its `should_execute` method. -/
structure ShouldExecutePolicy (Loc Instr Hash : Type) where
  name : String
  run : Loc → List Instr → Weight → Properties Hash →
    PolicyOutcome Instr Hash (Except ProcessMessageError Unit)

/-- One element of a `CheckSuspension` tuple. -/
structure CheckSuspensionPolicy (Loc Instr Hash : Type) where
  name : String
  run : Loc → List Instr → Weight → Properties Hash → PolicyOutcome Instr Hash Bool

/-- One element of a `DenyExecution` tuple: its `core::any::type_name` and its
`deny_execution` method. -/
structure DenyExecutionPolicy (Loc Instr Hash : Type) where
  name : String
  run : Loc → List Instr → Weight → Properties Hash →
    PolicyOutcome Instr Hash (Except ProcessMessageError Unit)

section Chains

variable {Loc Instr Hash : Type}

/-- The `impl ShouldExecute for Tuple` combinator (source lines 53-93).  Each
tuple element is tried in order: on `Ok(())` a "pass barrier" trace event is
emitted and the chain returns `Ok(())` at once; on `Err(error)` a
"did not pass barrier" trace event is emitted, the error is dropped, and the
next element is tried on the (possibly mutated) `instructions` / `properties`.
After the loop — also for the empty tuple — the chain returns
`Err(ProcessMessageError::Unsupported)`. -/
def should_execute : List (ShouldExecutePolicy Loc Instr Hash) → Loc → List Instr →
    Weight → Properties Hash →
    ChainOutcome Loc Instr Hash (Except ProcessMessageError Unit)
  | [], _, instructions, _, properties =>
      ⟨Except.error ProcessMessageError.Unsupported, instructions, properties, []⟩
  | p :: rest, origin, instructions, max_weight, properties =>
      match p.run origin instructions max_weight properties with
      | ⟨Except.ok _, instructions', properties'⟩ =>
          ⟨Except.ok (), instructions', properties',
            [⟨"xcm::should_execute", "trace", origin, instructions', max_weight,
              properties', none, p.name, "pass barrier"⟩]⟩
      | ⟨Except.error e, instructions', properties'⟩ =>
          let r := should_execute rest origin instructions' max_weight properties'
          ⟨r.result, r.instructions, r.properties,
            ⟨"xcm::should_execute", "trace", origin, instructions', max_weight,
              properties', some e, p.name, "did not pass barrier"⟩ :: r.trace⟩

/-- The `impl CheckSuspension for Tuple` combinator (source lines 113-129).
Each tuple element is tried in order; the first `true` returns `true` at once;
if every element returns `false` — also for the empty tuple — the chain
returns `false`.  This combinator emits no trace events in the source. -/
def is_suspended : List (CheckSuspensionPolicy Loc Instr Hash) → Loc → List Instr →
    Weight → Properties Hash → PolicyOutcome Instr Hash Bool
  | [], _, instruction, _, properties => ⟨false, instruction, properties⟩
  | p :: rest, origin, instruction, max_weight, properties =>
      match p.run origin instruction max_weight properties with
      | ⟨true, instruction', properties'⟩ => ⟨true, instruction', properties'⟩
      | ⟨false, instruction', properties'⟩ =>
          is_suspended rest origin instruction' max_weight properties'

/-- The `impl DenyExecution for Tuple` combinator (source lines 153-193).
Each tuple element is tried in order: on `Err(error)` a "did not pass barrier"
event is logged at error level and that exact error is returned at once; on
`Ok(())` a "pass barrier" trace event is emitted and the next element is tried
on the (possibly mutated) state.  After the loop — also for the empty tuple —
the chain returns `Ok(())`. -/
def deny_execution : List (DenyExecutionPolicy Loc Instr Hash) → Loc → List Instr →
    Weight → Properties Hash →
    ChainOutcome Loc Instr Hash (Except ProcessMessageError Unit)
  | [], _, instructions, _, properties => ⟨Except.ok (), instructions, properties, []⟩
  | p :: rest, origin, instructions, max_weight, properties =>
      match p.run origin instructions max_weight properties with
      | ⟨Except.error e, instructions', properties'⟩ =>
          ⟨Except.error e, instructions', properties',
            [⟨"xcm::deny_execution", "error", origin, instructions', max_weight,
              properties', some e, p.name, "did not pass barrier"⟩]⟩
      | ⟨Except.ok _, instructions', properties'⟩ =>
          let r := deny_execution rest origin instructions' max_weight properties'
          ⟨r.result, r.instructions, r.properties,
            ⟨"xcm::deny_execution", "trace", origin, instructions', max_weight,
              properties', none, p.name, "pass barrier"⟩ :: r.trace⟩

/-- The admission chain with its trace calls removed: the same control flow and
state threading as `should_execute`, with no event emission.  Used to state
that the tracing hook is pure observation. -/
def should_execute_noTrace : List (ShouldExecutePolicy Loc Instr Hash) → Loc →
    List Instr → Weight → Properties Hash →
    PolicyOutcome Instr Hash (Except ProcessMessageError Unit)
  | [], _, instructions, _, properties =>
      ⟨Except.error ProcessMessageError.Unsupported, instructions, properties⟩
  | p :: rest, origin, instructions, max_weight, properties =>
      match p.run origin instructions max_weight properties with
      | ⟨Except.ok _, instructions', properties'⟩ =>
          ⟨Except.ok (), instructions', properties'⟩
      | ⟨Except.error _, instructions', properties'⟩ =>
          should_execute_noTrace rest origin instructions' max_weight properties'

/-- The denial chain with its trace calls removed. -/
def deny_execution_noTrace : List (DenyExecutionPolicy Loc Instr Hash) → Loc →
    List Instr → Weight → Properties Hash →
    PolicyOutcome Instr Hash (Except ProcessMessageError Unit)
  | [], _, instructions, _, properties => ⟨Except.ok (), instructions, properties⟩
  | p :: rest, origin, instructions, max_weight, properties =>
      match p.run origin instructions max_weight properties with
      | ⟨Except.error e, instructions', properties'⟩ =>
          ⟨Except.error e, instructions', properties'⟩
      | ⟨Except.ok _, instructions', properties'⟩ =>
          deny_execution_noTrace rest origin instructions' max_weight properties'

/-- Instrumented suspension chain: same control flow as `is_suspended`, also
counting how many policies were evaluated (the source emits no trace events
here, so the count is added as explicit instrumentation). -/
def is_suspended_count : List (CheckSuspensionPolicy Loc Instr Hash) → Loc →
    List Instr → Weight → Properties Hash → PolicyOutcome Instr Hash Bool × Nat
  | [], _, instruction, _, properties => (⟨false, instruction, properties⟩, 0)
  | p :: rest, origin, instruction, max_weight, properties =>
      match p.run origin instruction max_weight properties with
      | ⟨true, instruction', properties'⟩ => (⟨true, instruction', properties'⟩, 1)
      | ⟨false, instruction', properties'⟩ =>
          let r := is_suspended_count rest origin instruction' max_weight properties'
          (r.1, r.2 + 1)

/-- Runs a list of admission policies in order, threading the mutable state,
under the assumption that every one of them rejects; returns the final state,
or `none` as soon as some policy accepts.  This is the specification device for
"every policy of this prefix rejects at its turn". -/
def runAllRejecting : List (ShouldExecutePolicy Loc Instr Hash) → Loc → List Instr →
    Weight → Properties Hash → Option (List Instr × Properties Hash)
  | [], _, instructions, _, properties => some (instructions, properties)
  | p :: rest, origin, instructions, max_weight, properties =>
      match p.run origin instructions max_weight properties with
      | ⟨Except.error _, instructions', properties'⟩ =>
          runAllRejecting rest origin instructions' max_weight properties'
      | ⟨Except.ok _, _, _⟩ => none

/-- Runs a list of denial policies in order, threading the mutable state, under
the assumption that every one of them returns `Ok(())`; returns the final
state, or `none` as soon as some policy returns an error. -/
def runAllAccepting : List (DenyExecutionPolicy Loc Instr Hash) → Loc → List Instr →
    Weight → Properties Hash → Option (List Instr × Properties Hash)
  | [], _, instructions, _, properties => some (instructions, properties)
  | p :: rest, origin, instructions, max_weight, properties =>
      match p.run origin instructions max_weight properties with
      | ⟨Except.ok _, instructions', properties'⟩ =>
          runAllAccepting rest origin instructions' max_weight properties'
      | ⟨Except.error _, _, _⟩ => none

/-- Runs a list of suspension policies in order, threading the mutable state,
under the assumption that every one of them returns `false`; returns the final
state, or `none` as soon as some policy returns `true`. -/
def runAllFalse : List (CheckSuspensionPolicy Loc Instr Hash) → Loc → List Instr →
    Weight → Properties Hash → Option (List Instr × Properties Hash)
  | [], _, instruction, _, properties => some (instruction, properties)
  | p :: rest, origin, instruction, max_weight, properties =>
      match p.run origin instruction max_weight properties with
      | ⟨false, instruction', properties'⟩ =>
          runAllFalse rest origin instruction' max_weight properties'
      | ⟨true, _, _⟩ => none

end Chains

/-- The caller's local frame at a chain call site: `origin` is passed by shared
reference, `max_weight` by value (`Weight` is `Copy`), `instructions` and
`properties` by `&mut`.  After the call, only the two `&mut` locations can
differ. -/
structure CallFrame (Loc Instr Hash : Type) where
  origin : Loc
  max_weight : Weight
  instructions : List Instr
  properties : Properties Hash
deriving Repr, DecidableEq

section Calls

variable {Loc Instr Hash : Type}

/-- A caller invoking the admission chain: the Rust call-site semantics writes
the callee's final `instructions` / `properties` back through the `&mut`
references and leaves every other caller local untouched. -/
def call_should_execute (policies : List (ShouldExecutePolicy Loc Instr Hash))
    (f : CallFrame Loc Instr Hash) :
    Except ProcessMessageError Unit × CallFrame Loc Instr Hash :=
  let r := should_execute policies f.origin f.instructions f.max_weight f.properties
  (r.result, { f with instructions := r.instructions, properties := r.properties })

/-- A caller invoking the suspension chain. -/
def call_is_suspended (policies : List (CheckSuspensionPolicy Loc Instr Hash))
    (f : CallFrame Loc Instr Hash) : Bool × CallFrame Loc Instr Hash :=
  let r := is_suspended policies f.origin f.instructions f.max_weight f.properties
  (r.result, { f with instructions := r.instructions, properties := r.properties })

/-- A caller invoking the denial chain. -/
def call_deny_execution (policies : List (DenyExecutionPolicy Loc Instr Hash))
    (f : CallFrame Loc Instr Hash) :
    Except ProcessMessageError Unit × CallFrame Loc Instr Hash :=
  let r := deny_execution policies f.origin f.instructions f.max_weight f.properties
  (r.result, { f with instructions := r.instructions, properties := r.properties })

end Calls

/-!
Concrete stub policies (over `Loc = Instr = Hash = Nat`) used to evaluate the
chain combinators on closed inputs, in the style of the counting /
side-effect-recording stub policies the testable properties ask for.
-/

/-- Caller-supplied weight-budget estimate used in concrete evaluations. -/
def w0 : Weight := ⟨10, 5⟩

/-- Initial properties used in concrete evaluations. -/
def pr0 : Properties Nat := ⟨⟨0, 0⟩, none⟩

/-- Properties as left behind by `admitAcceptCredit`. -/
def prCredited : Properties Nat := ⟨⟨3, 1⟩, some 42⟩

/-- Stub admission policy: removes instruction index 0 as a side effect, then
rejects with `BadFormat`. -/
def admitRejectDropHead : ShouldExecutePolicy Nat Nat Nat :=
  ⟨"RejectDropHead", fun _ instructions _ properties =>
    ⟨Except.error ProcessMessageError.BadFormat, instructions.tail, properties⟩⟩

/-- Stub admission policy: accepts and mutates `Properties`. -/
def admitAcceptCredit : ShouldExecutePolicy Nat Nat Nat :=
  ⟨"AcceptCredit", fun _ instructions _ _ => ⟨Except.ok (), instructions, prCredited⟩⟩

/-- Stub admission policy: rejects with `Corrupt`, no mutation. -/
def admitRejectPlain : ShouldExecutePolicy Nat Nat Nat :=
  ⟨"RejectPlain", fun _ instructions _ properties =>
    ⟨Except.error ProcessMessageError.Corrupt, instructions, properties⟩⟩

/-- Stub suspension policy answering `false`, no mutation. -/
def suspFalse : CheckSuspensionPolicy Nat Nat Nat :=
  ⟨"SuspFalse", fun _ instruction _ properties => ⟨false, instruction, properties⟩⟩

/-- Stub suspension policy answering `true`, no mutation. -/
def suspTrue : CheckSuspensionPolicy Nat Nat Nat :=
  ⟨"SuspTrue", fun _ instruction _ properties => ⟨true, instruction, properties⟩⟩

/-- Stub denial policy: no reason to deny; consumes instruction index 0 and
credits weight as a side effect. -/
def denyOkMutate : DenyExecutionPolicy Nat Nat Nat :=
  ⟨"OkMutate", fun _ instructions _ properties =>
    ⟨Except.ok (), instructions.tail, { properties with weight_credit := ⟨7, 7⟩ }⟩⟩

/-- Stub denial policy: denies with a distinctive error. -/
def denyOverweight : DenyExecutionPolicy Nat Nat Nat :=
  ⟨"DenyOverweight", fun _ instructions _ properties =>
    ⟨Except.error (ProcessMessageError.Overweight ⟨9, 9⟩), instructions, properties⟩⟩

/-- Stub denial policy: no reason to deny, no mutation. -/
def denyOkPlain : DenyExecutionPolicy Nat Nat Nat :=
  ⟨"OkPlain", fun _ instructions _ properties => ⟨Except.ok (), instructions, properties⟩⟩

/-- Concrete caller frame for evaluating the call wrappers. -/
def frame0 : CallFrame Nat Nat Nat := ⟨0, w0, [7, 8], pr0⟩

/-- The one trace event emitted by the admission chain `[admitRejectDropHead]`
run on `frame0`. -/
def ev0 : TraceEvent Nat Nat Nat :=
  ⟨"xcm::should_execute", "trace", 0, [8], w0, pr0,
    some ProcessMessageError.BadFormat, "RejectDropHead", "did not pass barrier"⟩

section AdmissionLemmas

variable {Loc Instr Hash : Type}

/-- Helper: if every policy of `qs` rejects at its turn and `p` then accepts,
the admission chain `qs ++ p :: rest` returns `Ok(())` with exactly the state
left by `p`, having evaluated (and traced) `qs.length + 1` policies — for any
`rest`. -/
theorem should_execute_accept_aux (origin : Loc) (max_weight : Weight)
    (p : ShouldExecutePolicy Loc Instr Hash)
    (rest : List (ShouldExecutePolicy Loc Instr Hash)) :
    ∀ (qs : List (ShouldExecutePolicy Loc Instr Hash)) (instructions : List Instr)
      (properties : Properties Hash) (instructions' : List Instr)
      (properties' : Properties Hash) (instructions'' : List Instr)
      (properties'' : Properties Hash),
      runAllRejecting qs origin instructions max_weight properties =
        some (instructions', properties') →
      p.run origin instructions' max_weight properties' =
        ⟨Except.ok (), instructions'', properties''⟩ →
      (should_execute (qs ++ p :: rest) origin instructions max_weight
          properties).result = Except.ok () ∧
      (should_execute (qs ++ p :: rest) origin instructions max_weight
          properties).instructions = instructions'' ∧
      (should_execute (qs ++ p :: rest) origin instructions max_weight
          properties).properties = properties'' ∧
      (should_execute (qs ++ p :: rest) origin instructions max_weight
          properties).trace.length = qs.length + 1 := by
  intro qs
  induction qs with
  | nil =>
    intro instructions properties i' pr' i'' pr'' hq hp
    simp only [runAllRejecting, Option.some.injEq, Prod.mk.injEq] at hq
    obtain ⟨h1, h2⟩ := hq
    subst h1
    subst h2
    simp [should_execute, hp]
  | cons q qs ih =>
    intro instructions properties i' pr' i'' pr'' hq hp
    rcases hqr : q.run origin instructions max_weight properties with ⟨r, i1, p1⟩
    simp only [runAllRejecting, hqr] at hq
    cases r with
    | ok u => simp at hq
    | error e =>
      simp only at hq
      have ihh := ih i1 p1 i' pr' i'' pr'' hq hp
      simp only [List.cons_append, should_execute, hqr]
      exact ⟨ihh.1, ihh.2.1, ihh.2.2.1, by simp [ihh.2.2.2]⟩

/-- Helper: if every policy of `ps` rejects at its turn, the admission chain
returns `Err(Unsupported)` with the state threaded through all of them, having
evaluated (and traced) all `ps.length` policies. -/
theorem should_execute_reject_aux (origin : Loc) (max_weight : Weight) :
    ∀ (ps : List (ShouldExecutePolicy Loc Instr Hash)) (instructions : List Instr)
      (properties : Properties Hash) (instructions' : List Instr)
      (properties' : Properties Hash),
      runAllRejecting ps origin instructions max_weight properties =
        some (instructions', properties') →
      (should_execute ps origin instructions max_weight properties).result =
        Except.error ProcessMessageError.Unsupported ∧
      (should_execute ps origin instructions max_weight properties).instructions =
        instructions' ∧
      (should_execute ps origin instructions max_weight properties).properties =
        properties' ∧
      (should_execute ps origin instructions max_weight properties).trace.length =
        ps.length := by
  intro ps
  induction ps with
  | nil =>
    intro instructions properties i' pr' hq
    simp only [runAllRejecting, Option.some.injEq, Prod.mk.injEq] at hq
    obtain ⟨h1, h2⟩ := hq
    subst h1
    subst h2
    simp [should_execute]
  | cons q qs ih =>
    intro instructions properties i' pr' hq
    rcases hqr : q.run origin instructions max_weight properties with ⟨r, i1, p1⟩
    simp only [runAllRejecting, hqr] at hq
    cases r with
    | ok u => simp at hq
    | error e =>
      simp only at hq
      have ihh := ih i1 p1 i' pr' hq
      simp only [should_execute, hqr]
      exact ⟨ihh.1, ihh.2.1, ihh.2.2.1, by simp [ihh.2.2.2]⟩

/-- Helper: a rejecting head policy hands its (possibly mutated) state to the
remainder of the chain, and the chain's verdict and final state are those of
the remainder run from that mutated state. -/
theorem should_execute_cons_error (origin : Loc) (max_weight : Weight)
    (p : ShouldExecutePolicy Loc Instr Hash)
    (ps : List (ShouldExecutePolicy Loc Instr Hash)) (instructions : List Instr)
    (properties : Properties Hash) (e : ProcessMessageError)
    (instructions' : List Instr) (properties' : Properties Hash)
    (hp : p.run origin instructions max_weight properties =
      ⟨Except.error e, instructions', properties'⟩) :
    (should_execute (p :: ps) origin instructions max_weight properties).result =
      (should_execute ps origin instructions' max_weight properties').result ∧
    (should_execute (p :: ps) origin instructions max_weight properties).instructions =
      (should_execute ps origin instructions' max_weight properties').instructions ∧
    (should_execute (p :: ps) origin instructions max_weight properties).properties =
      (should_execute ps origin instructions' max_weight properties').properties := by
  simp [should_execute, hp]

/-- Helper: the admission chain's trace names, in order, exactly the evaluated
policies: a prefix of the configured list. -/
theorem should_execute_trace_names (origin : Loc) (max_weight : Weight) :
    ∀ (ps : List (ShouldExecutePolicy Loc Instr Hash)) (instructions : List Instr)
      (properties : Properties Hash),
      (should_execute ps origin instructions max_weight properties).trace.map
          TraceEvent.barrier =
        (ps.take (should_execute ps origin instructions max_weight
          properties).trace.length).map ShouldExecutePolicy.name := by
  intro ps
  induction ps with
  | nil => intro instructions properties; simp [should_execute]
  | cons q qs ih =>
    intro instructions properties
    rcases hqr : q.run origin instructions max_weight properties with ⟨r, i1, p1⟩
    cases r with
    | ok u => simp [should_execute, hqr]
    | error e => simp [should_execute, hqr, ih i1 p1]

/-- Helper: the admission chain evaluates at most `ps.length` policies. -/
theorem should_execute_trace_len_le (origin : Loc) (max_weight : Weight) :
    ∀ (ps : List (ShouldExecutePolicy Loc Instr Hash)) (instructions : List Instr)
      (properties : Properties Hash),
      (should_execute ps origin instructions max_weight properties).trace.length ≤
        ps.length := by
  intro ps
  induction ps with
  | nil => intro instructions properties; simp [should_execute]
  | cons q qs ih =>
    intro instructions properties
    rcases hqr : q.run origin instructions max_weight properties with ⟨r, i1, p1⟩
    cases r with
    | ok u => simp [should_execute, hqr]
    | error e =>
      simp only [should_execute, hqr, List.length_cons]
      exact Nat.succ_le_succ (ih i1 p1)

/-- Helper: every trace event of the admission chain records the caller's
`max_weight` unchanged — each policy trial is given the same value. -/
theorem should_execute_trace_weight (origin : Loc) (max_weight : Weight) :
    ∀ (ps : List (ShouldExecutePolicy Loc Instr Hash)) (instructions : List Instr)
      (properties : Properties Hash)
      (ev : TraceEvent Loc Instr Hash),
      ev ∈ (should_execute ps origin instructions max_weight properties).trace →
      ev.max_weight = max_weight := by
  intro ps
  induction ps with
  | nil => intro instructions properties ev hev; simp [should_execute] at hev
  | cons q qs ih =>
    intro instructions properties ev hev
    rcases hqr : q.run origin instructions max_weight properties with ⟨r, i1, p1⟩
    cases r with
    | ok u =>
      simp [should_execute, hqr] at hev
      subst hev
      rfl
    | error e =>
      simp only [should_execute, hqr, List.mem_cons] at hev
      rcases hev with hev | hev
      · subst hev; rfl
      · exact ih i1 p1 ev hev

/-- Helper: the admission chain with trace calls removed computes the same
verdict and final state as the traced one. -/
theorem should_execute_noTrace_eq (origin : Loc) (max_weight : Weight) :
    ∀ (ps : List (ShouldExecutePolicy Loc Instr Hash)) (instructions : List Instr)
      (properties : Properties Hash),
      should_execute_noTrace ps origin instructions max_weight properties =
        ⟨(should_execute ps origin instructions max_weight properties).result,
         (should_execute ps origin instructions max_weight properties).instructions,
         (should_execute ps origin instructions max_weight properties).properties⟩ := by
  intro ps
  induction ps with
  | nil => intro instructions properties; simp [should_execute, should_execute_noTrace]
  | cons q qs ih =>
    intro instructions properties
    rcases hqr : q.run origin instructions max_weight properties with ⟨r, i1, p1⟩
    cases r with
    | ok u => simp [should_execute, should_execute_noTrace, hqr]
    | error e => simp [should_execute, should_execute_noTrace, hqr, ih i1 p1]

end AdmissionLemmas

section DenialLemmas

variable {Loc Instr Hash : Type}

/-- Helper: if every policy of `qs` returns `Ok(())` at its turn and `p` then
returns `Err(e)`, the denial chain `qs ++ p :: rest` returns exactly `Err(e)`
with exactly the state left by `p`, having evaluated (and traced)
`qs.length + 1` policies — for any `rest`. -/
theorem deny_execution_error_aux (origin : Loc) (max_weight : Weight)
    (p : DenyExecutionPolicy Loc Instr Hash)
    (rest : List (DenyExecutionPolicy Loc Instr Hash)) :
    ∀ (qs : List (DenyExecutionPolicy Loc Instr Hash)) (instructions : List Instr)
      (properties : Properties Hash) (instructions' : List Instr)
      (properties' : Properties Hash) (e : ProcessMessageError)
      (instructions'' : List Instr) (properties'' : Properties Hash),
      runAllAccepting qs origin instructions max_weight properties =
        some (instructions', properties') →
      p.run origin instructions' max_weight properties' =
        ⟨Except.error e, instructions'', properties''⟩ →
      (deny_execution (qs ++ p :: rest) origin instructions max_weight
          properties).result = Except.error e ∧
      (deny_execution (qs ++ p :: rest) origin instructions max_weight
          properties).instructions = instructions'' ∧
      (deny_execution (qs ++ p :: rest) origin instructions max_weight
          properties).properties = properties'' ∧
      (deny_execution (qs ++ p :: rest) origin instructions max_weight
          properties).trace.length = qs.length + 1 := by
  intro qs
  induction qs with
  | nil =>
    intro instructions properties i' pr' e i'' pr'' hq hp
    simp only [runAllAccepting, Option.some.injEq, Prod.mk.injEq] at hq
    obtain ⟨h1, h2⟩ := hq
    subst h1
    subst h2
    simp [deny_execution, hp]
  | cons q qs ih =>
    intro instructions properties i' pr' e i'' pr'' hq hp
    rcases hqr : q.run origin instructions max_weight properties with ⟨r, i1, p1⟩
    simp only [runAllAccepting, hqr] at hq
    cases r with
    | error e1 => simp at hq
    | ok u =>
      simp only at hq
      have ihh := ih i1 p1 i' pr' e i'' pr'' hq hp
      simp only [List.cons_append, deny_execution, hqr]
      exact ⟨ihh.1, ihh.2.1, ihh.2.2.1, by simp [ihh.2.2.2]⟩

/-- Helper: if every policy of `ps` returns `Ok(())` at its turn, the denial
chain returns `Ok(())` with the state threaded through all of them, having
evaluated (and traced) all `ps.length` policies. -/
theorem deny_execution_ok_aux (origin : Loc) (max_weight : Weight) :
    ∀ (ps : List (DenyExecutionPolicy Loc Instr Hash)) (instructions : List Instr)
      (properties : Properties Hash) (instructions' : List Instr)
      (properties' : Properties Hash),
      runAllAccepting ps origin instructions max_weight properties =
        some (instructions', properties') →
      (deny_execution ps origin instructions max_weight properties).result =
        Except.ok () ∧
      (deny_execution ps origin instructions max_weight properties).instructions =
        instructions' ∧
      (deny_execution ps origin instructions max_weight properties).properties =
        properties' ∧
      (deny_execution ps origin instructions max_weight properties).trace.length =
        ps.length := by
  intro ps
  induction ps with
  | nil =>
    intro instructions properties i' pr' hq
    simp only [runAllAccepting, Option.some.injEq, Prod.mk.injEq] at hq
    obtain ⟨h1, h2⟩ := hq
    subst h1
    subst h2
    simp [deny_execution]
  | cons q qs ih =>
    intro instructions properties i' pr' hq
    rcases hqr : q.run origin instructions max_weight properties with ⟨r, i1, p1⟩
    simp only [runAllAccepting, hqr] at hq
    cases r with
    | error e1 => simp at hq
    | ok u =>
      simp only at hq
      have ihh := ih i1 p1 i' pr' hq
      simp only [deny_execution, hqr]
      exact ⟨ihh.1, ihh.2.1, ihh.2.2.1, by simp [ihh.2.2.2]⟩

/-- Helper: conversely, if the denial chain returns `Ok(())` then every policy
returned `Ok(())` at its turn. -/
theorem deny_execution_ok_conv (origin : Loc) (max_weight : Weight) :
    ∀ (ps : List (DenyExecutionPolicy Loc Instr Hash)) (instructions : List Instr)
      (properties : Properties Hash),
      (deny_execution ps origin instructions max_weight properties).result =
        Except.ok () →
      runAllAccepting ps origin instructions max_weight properties =
        some ((deny_execution ps origin instructions max_weight properties).instructions,
          (deny_execution ps origin instructions max_weight properties).properties) := by
  intro ps
  induction ps with
  | nil => intro instructions properties hok; simp [deny_execution, runAllAccepting]
  | cons q qs ih =>
    intro instructions properties hok
    rcases hqr : q.run origin instructions max_weight properties with ⟨r, i1, p1⟩
    cases r with
    | error e1 => simp [deny_execution, hqr] at hok
    | ok u =>
      simp only [deny_execution, hqr] at hok ⊢
      simp only [runAllAccepting, hqr]
      exact ih i1 p1 hok

/-- Helper: the denial chain evaluates at most `ps.length` policies. -/
theorem deny_execution_trace_len_le (origin : Loc) (max_weight : Weight) :
    ∀ (ps : List (DenyExecutionPolicy Loc Instr Hash)) (instructions : List Instr)
      (properties : Properties Hash),
      (deny_execution ps origin instructions max_weight properties).trace.length ≤
        ps.length := by
  intro ps
  induction ps with
  | nil => intro instructions properties; simp [deny_execution]
  | cons q qs ih =>
    intro instructions properties
    rcases hqr : q.run origin instructions max_weight properties with ⟨r, i1, p1⟩
    cases r with
    | error e1 => simp [deny_execution, hqr]
    | ok u =>
      simp only [deny_execution, hqr, List.length_cons]
      exact Nat.succ_le_succ (ih i1 p1)

/-- Helper: the denial chain's trace names, in order, exactly the evaluated
policies: a prefix of the configured list. -/
theorem deny_execution_trace_names (origin : Loc) (max_weight : Weight) :
    ∀ (ps : List (DenyExecutionPolicy Loc Instr Hash)) (instructions : List Instr)
      (properties : Properties Hash),
      (deny_execution ps origin instructions max_weight properties).trace.map
          TraceEvent.barrier =
        (ps.take (deny_execution ps origin instructions max_weight
          properties).trace.length).map DenyExecutionPolicy.name := by
  intro ps
  induction ps with
  | nil => intro instructions properties; simp [deny_execution]
  | cons q qs ih =>
    intro instructions properties
    rcases hqr : q.run origin instructions max_weight properties with ⟨r, i1, p1⟩
    cases r with
    | error e1 => simp [deny_execution, hqr]
    | ok u => simp [deny_execution, hqr, ih i1 p1]

/-- Helper: every trace event of the denial chain records the caller's
`max_weight` unchanged. -/
theorem deny_execution_trace_weight (origin : Loc) (max_weight : Weight) :
    ∀ (ps : List (DenyExecutionPolicy Loc Instr Hash)) (instructions : List Instr)
      (properties : Properties Hash) (ev : TraceEvent Loc Instr Hash),
      ev ∈ (deny_execution ps origin instructions max_weight properties).trace →
      ev.max_weight = max_weight := by
  intro ps
  induction ps with
  | nil => intro instructions properties ev hev; simp [deny_execution] at hev
  | cons q qs ih =>
    intro instructions properties ev hev
    rcases hqr : q.run origin instructions max_weight properties with ⟨r, i1, p1⟩
    cases r with
    | error e1 =>
      simp [deny_execution, hqr] at hev
      subst hev
      rfl
    | ok u =>
      simp only [deny_execution, hqr, List.mem_cons] at hev
      rcases hev with hev | hev
      · subst hev; rfl
      · exact ih i1 p1 ev hev

/-- Helper: the denial chain with trace calls removed computes the same verdict
and final state as the traced one. -/
theorem deny_execution_noTrace_eq (origin : Loc) (max_weight : Weight) :
    ∀ (ps : List (DenyExecutionPolicy Loc Instr Hash)) (instructions : List Instr)
      (properties : Properties Hash),
      deny_execution_noTrace ps origin instructions max_weight properties =
        ⟨(deny_execution ps origin instructions max_weight properties).result,
         (deny_execution ps origin instructions max_weight properties).instructions,
         (deny_execution ps origin instructions max_weight properties).properties⟩ := by
  intro ps
  induction ps with
  | nil => intro instructions properties; simp [deny_execution, deny_execution_noTrace]
  | cons q qs ih =>
    intro instructions properties
    rcases hqr : q.run origin instructions max_weight properties with ⟨r, i1, p1⟩
    cases r with
    | error e1 => simp [deny_execution, deny_execution_noTrace, hqr]
    | ok u => simp [deny_execution, deny_execution_noTrace, hqr, ih i1 p1]

end DenialLemmas

section SuspensionLemmas

variable {Loc Instr Hash : Type}

/-- Helper: the instrumented suspension chain computes the same outcome as the
plain one — the evaluation counter is pure instrumentation. -/
theorem is_suspended_count_fst (origin : Loc) (max_weight : Weight) :
    ∀ (ps : List (CheckSuspensionPolicy Loc Instr Hash)) (instruction : List Instr)
      (properties : Properties Hash),
      (is_suspended_count ps origin instruction max_weight properties).1 =
        is_suspended ps origin instruction max_weight properties := by
  intro ps
  induction ps with
  | nil => intro instruction properties; rfl
  | cons q qs ih =>
    intro instruction properties
    rcases hqr : q.run origin instruction max_weight properties with ⟨r, i1, p1⟩
    cases r with
    | true => simp [is_suspended, is_suspended_count, hqr]
    | false => simp [is_suspended, is_suspended_count, hqr, ih i1 p1]

/-- Helper: the suspension chain evaluates at most `ps.length` policies. -/
theorem is_suspended_count_le (origin : Loc) (max_weight : Weight) :
    ∀ (ps : List (CheckSuspensionPolicy Loc Instr Hash)) (instruction : List Instr)
      (properties : Properties Hash),
      (is_suspended_count ps origin instruction max_weight properties).2 ≤
        ps.length := by
  intro ps
  induction ps with
  | nil => intro instruction properties; simp [is_suspended_count]
  | cons q qs ih =>
    intro instruction properties
    rcases hqr : q.run origin instruction max_weight properties with ⟨r, i1, p1⟩
    cases r with
    | true => simp [is_suspended_count, hqr]
    | false =>
      simp only [is_suspended_count, hqr, List.length_cons]
      exact Nat.succ_le_succ (ih i1 p1)

/-- Helper: if every policy of `ps` returns `false` at its turn, the suspension
chain returns `false` with the state threaded through all of them, each policy
having been evaluated exactly once (`ps.length` evaluations). -/
theorem is_suspended_false_aux (origin : Loc) (max_weight : Weight) :
    ∀ (ps : List (CheckSuspensionPolicy Loc Instr Hash)) (instruction : List Instr)
      (properties : Properties Hash) (instruction' : List Instr)
      (properties' : Properties Hash),
      runAllFalse ps origin instruction max_weight properties =
        some (instruction', properties') →
      is_suspended ps origin instruction max_weight properties =
        ⟨false, instruction', properties'⟩ ∧
      (is_suspended_count ps origin instruction max_weight properties).2 =
        ps.length := by
  intro ps
  induction ps with
  | nil =>
    intro instruction properties i' pr' hq
    simp only [runAllFalse, Option.some.injEq, Prod.mk.injEq] at hq
    obtain ⟨h1, h2⟩ := hq
    subst h1
    subst h2
    exact ⟨rfl, rfl⟩
  | cons q qs ih =>
    intro instruction properties i' pr' hq
    rcases hqr : q.run origin instruction max_weight properties with ⟨r, i1, p1⟩
    simp only [runAllFalse, hqr] at hq
    cases r with
    | true => simp at hq
    | false =>
      simp only at hq
      have ihh := ih i1 p1 i' pr' hq
      constructor
      · simp [is_suspended, hqr, ihh.1]
      · simp [is_suspended_count, hqr, ihh.2]

/-- Helper: if every policy of `qs` returns `false` at its turn and `p` then
returns `true`, the suspension chain `qs ++ p :: rest` returns `true` with the
state left by `p`, having evaluated `qs.length + 1` policies — for any
`rest`. -/
theorem is_suspended_true_aux (origin : Loc) (max_weight : Weight)
    (p : CheckSuspensionPolicy Loc Instr Hash)
    (rest : List (CheckSuspensionPolicy Loc Instr Hash)) :
    ∀ (qs : List (CheckSuspensionPolicy Loc Instr Hash)) (instruction : List Instr)
      (properties : Properties Hash) (instruction' : List Instr)
      (properties' : Properties Hash) (instruction'' : List Instr)
      (properties'' : Properties Hash),
      runAllFalse qs origin instruction max_weight properties =
        some (instruction', properties') →
      p.run origin instruction' max_weight properties' =
        ⟨true, instruction'', properties''⟩ →
      is_suspended (qs ++ p :: rest) origin instruction max_weight properties =
        ⟨true, instruction'', properties''⟩ ∧
      (is_suspended_count (qs ++ p :: rest) origin instruction max_weight
        properties).2 = qs.length + 1 := by
  intro qs
  induction qs with
  | nil =>
    intro instruction properties i' pr' i'' pr'' hq hp
    simp only [runAllFalse, Option.some.injEq, Prod.mk.injEq] at hq
    obtain ⟨h1, h2⟩ := hq
    subst h1
    subst h2
    constructor
    · simp [is_suspended, hp]
    · simp [is_suspended_count, hp]
  | cons q qs ih =>
    intro instruction properties i' pr' i'' pr'' hq hp
    rcases hqr : q.run origin instruction max_weight properties with ⟨r, i1, p1⟩
    simp only [runAllFalse, hqr] at hq
    cases r with
    | true => simp at hq
    | false =>
      simp only at hq
      have ihh := ih i1 p1 i' pr' i'' pr'' hq hp
      constructor
      · simp [List.cons_append, is_suspended, hqr, ihh.1]
      · simp [List.cons_append, is_suspended_count, hqr, ihh.2]

end SuspensionLemmas

section Claims

variable {Loc Instr Hash : Type}

/-- C1: the admission chain `should_execute` evaluates policies in declared
order; a rejecting policy's reason is discarded and evaluation continues on the
state it left; on the first policy returning `Ok`, the chain stops and returns
`Ok(())` immediately — for any `rest` of subsequent policies, which are never
evaluated (the trace has exactly `qs.length + 1` entries) — and the final
instruction sequence and `Properties` are exactly those left by the accepting
policy `p`, run on the state threaded through the rejecting prefix `qs`. -/
theorem should_execute_first_accept_wins
    (qs rest : List (ShouldExecutePolicy Loc Instr Hash))
    (p : ShouldExecutePolicy Loc Instr Hash) (origin : Loc)
    (instructions instructions' instructions'' : List Instr) (max_weight : Weight)
    (properties properties' properties'' : Properties Hash)
    (hq : runAllRejecting qs origin instructions max_weight properties =
      some (instructions', properties'))
    (hp : p.run origin instructions' max_weight properties' =
      ⟨Except.ok (), instructions'', properties''⟩) :
    (should_execute (qs ++ p :: rest) origin instructions max_weight
        properties).result = Except.ok () ∧
    (should_execute (qs ++ p :: rest) origin instructions max_weight
        properties).instructions = instructions'' ∧
    (should_execute (qs ++ p :: rest) origin instructions max_weight
        properties).properties = properties'' ∧
    (should_execute (qs ++ p :: rest) origin instructions max_weight
        properties).trace.length = qs.length + 1 :=
  should_execute_accept_aux origin max_weight p rest qs instructions properties
    instructions' properties' instructions'' properties'' hq hp

/-- Witness for C1: chain `[admitRejectDropHead, admitAcceptCredit,
admitRejectPlain]` on instructions `[7, 8]` — the first policy drops index 0
and rejects, the second accepts mutating `Properties`, the third is never
evaluated; the chain returns `Ok` with instructions `[8]`, properties
`prCredited`, and exactly 2 trace entries. -/
theorem should_execute_first_accept_wins_witness :
    runAllRejecting [admitRejectDropHead] 0 [7, 8] w0 pr0 = some ([8], pr0) ∧
    admitAcceptCredit.run 0 [8] w0 pr0 = ⟨Except.ok (), [8], prCredited⟩ ∧
    ((should_execute ([admitRejectDropHead] ++ admitAcceptCredit ::
        [admitRejectPlain]) 0 [7, 8] w0 pr0).result = Except.ok () ∧
      (should_execute ([admitRejectDropHead] ++ admitAcceptCredit ::
        [admitRejectPlain]) 0 [7, 8] w0 pr0).instructions = [8] ∧
      (should_execute ([admitRejectDropHead] ++ admitAcceptCredit ::
        [admitRejectPlain]) 0 [7, 8] w0 pr0).properties = prCredited ∧
      (should_execute ([admitRejectDropHead] ++ admitAcceptCredit ::
        [admitRejectPlain]) 0 [7, 8] w0 pr0).trace.length = 2) :=
  ⟨rfl, rfl,
    should_execute_first_accept_wins [admitRejectDropHead] [admitRejectPlain]
      admitAcceptCredit 0 [7, 8] [8] [8] w0 pr0 pr0 prCredited rfl rfl⟩

/-- C4: if every policy of the admission chain rejects at its turn (the empty
tuple included, via `ps = []`), the chain returns exactly the generic
`ProcessMessageError::Unsupported` — whatever errors the individual policies
returned, none appears in the result. -/
theorem should_execute_all_reject_unsupported
    (ps : List (ShouldExecutePolicy Loc Instr Hash)) (origin : Loc)
    (instructions instructions' : List Instr) (max_weight : Weight)
    (properties properties' : Properties Hash)
    (hq : runAllRejecting ps origin instructions max_weight properties =
      some (instructions', properties')) :
    (should_execute ps origin instructions max_weight properties).result =
      Except.error ProcessMessageError.Unsupported ∧
    (should_execute ps origin instructions max_weight properties).instructions =
      instructions' ∧
    (should_execute ps origin instructions max_weight properties).properties =
      properties' :=
  ⟨(should_execute_reject_aux origin max_weight ps instructions properties
      instructions' properties' hq).1,
   (should_execute_reject_aux origin max_weight ps instructions properties
      instructions' properties' hq).2.1,
   (should_execute_reject_aux origin max_weight ps instructions properties
      instructions' properties' hq).2.2.1⟩

/-- Witness for C4: the chain `[admitRejectDropHead, admitRejectPlain]`, whose
policies reject with `BadFormat` and `Corrupt` respectively, returns
`Unsupported` — neither individual reason survives. -/
theorem should_execute_all_reject_unsupported_witness :
    runAllRejecting [admitRejectDropHead, admitRejectPlain] 0 [7, 8] w0 pr0 =
      some ([8], pr0) ∧
    ((should_execute [admitRejectDropHead, admitRejectPlain] 0 [7, 8] w0
        pr0).result = Except.error ProcessMessageError.Unsupported ∧
      (should_execute [admitRejectDropHead, admitRejectPlain] 0 [7, 8] w0
        pr0).instructions = [8] ∧
      (should_execute [admitRejectDropHead, admitRejectPlain] 0 [7, 8] w0
        pr0).properties = pr0) :=
  ⟨rfl,
    should_execute_all_reject_unsupported [admitRejectDropHead, admitRejectPlain]
      0 [7, 8] [8] w0 pr0 pr0 rfl⟩

/-- C5: mutations made by an admission policy that subsequently rejects are not
rolled back — the chain continues on the mutated instruction sequence and
`Properties`, so the next policy and the chain's final verdict observe them. -/
theorem should_execute_reject_mutation_visible
    (p : ShouldExecutePolicy Loc Instr Hash)
    (ps : List (ShouldExecutePolicy Loc Instr Hash)) (origin : Loc)
    (instructions instructions' : List Instr) (max_weight : Weight)
    (properties properties' : Properties Hash) (e : ProcessMessageError)
    (hp : p.run origin instructions max_weight properties =
      ⟨Except.error e, instructions', properties'⟩) :
    (should_execute (p :: ps) origin instructions max_weight properties).result =
      (should_execute ps origin instructions' max_weight properties').result ∧
    (should_execute (p :: ps) origin instructions max_weight
        properties).instructions =
      (should_execute ps origin instructions' max_weight
        properties').instructions ∧
    (should_execute (p :: ps) origin instructions max_weight
        properties).properties =
      (should_execute ps origin instructions' max_weight
        properties').properties :=
  should_execute_cons_error origin max_weight p ps instructions properties e
    instructions' properties' hp

/-- Witness for C5: `admitRejectDropHead` removes instruction index 0 from
`[7, 8]` and rejects; the rest of the chain — here the accepting
`admitAcceptCredit` — runs on the already-shortened `[8]`, and the caller's
final verdict carries it. -/
theorem should_execute_reject_mutation_visible_witness :
    admitRejectDropHead.run 0 [7, 8] w0 pr0 =
      ⟨Except.error ProcessMessageError.BadFormat, [8], pr0⟩ ∧
    ((should_execute [admitRejectDropHead, admitAcceptCredit] 0 [7, 8] w0
        pr0).instructions =
      (should_execute [admitAcceptCredit] 0 [8] w0 pr0).instructions) ∧
    (should_execute [admitAcceptCredit] 0 [8] w0 pr0).instructions = [8] ∧
    (should_execute [admitRejectDropHead, admitAcceptCredit] 0 [7, 8] w0
        pr0).result = Except.ok () :=
  ⟨rfl,
    (should_execute_reject_mutation_visible admitRejectDropHead
      [admitAcceptCredit] 0 [7, 8] [8] w0 pr0 pr0
      ProcessMessageError.BadFormat rfl).2.1,
    rfl, rfl⟩

/-- C2: the denial chain `deny_execution` evaluates policies in declared order;
on the first policy returning an error the chain stops immediately and returns
that exact error unchanged, with no subsequent policy evaluated (the trace has
exactly `qs.length + 1` entries, for any `rest`); it returns `Ok(())` exactly
when every policy returns `Ok` at its turn; the empty chain returns
`Ok(())`. -/
theorem deny_execution_chain_spec
    (ps : List (DenyExecutionPolicy Loc Instr Hash)) (origin : Loc)
    (instructions : List Instr) (max_weight : Weight)
    (properties : Properties Hash) :
    (∀ (qs rest : List (DenyExecutionPolicy Loc Instr Hash))
       (p : DenyExecutionPolicy Loc Instr Hash)
       (instructions' instructions'' : List Instr)
       (properties' properties'' : Properties Hash) (e : ProcessMessageError),
       ps = qs ++ p :: rest →
       runAllAccepting qs origin instructions max_weight properties =
         some (instructions', properties') →
       p.run origin instructions' max_weight properties' =
         ⟨Except.error e, instructions'', properties''⟩ →
       (deny_execution ps origin instructions max_weight properties).result =
         Except.error e ∧
       (deny_execution ps origin instructions max_weight
         properties).trace.length = qs.length + 1) ∧
    ((deny_execution ps origin instructions max_weight properties).result =
        Except.ok () ↔
      ∃ instructions' properties',
        runAllAccepting ps origin instructions max_weight properties =
          some (instructions', properties')) ∧
    (deny_execution ([] : List (DenyExecutionPolicy Loc Instr Hash)) origin
        instructions max_weight properties).result = Except.ok () := by
  refine ⟨?_, ⟨?_, ?_⟩, rfl⟩
  · intro qs rest p i' i'' pr' pr'' e hps hq hp
    subst hps
    exact ⟨(deny_execution_error_aux origin max_weight p rest qs instructions
        properties i' pr' e i'' pr'' hq hp).1,
      (deny_execution_error_aux origin max_weight p rest qs instructions
        properties i' pr' e i'' pr'' hq hp).2.2.2⟩
  · intro hok
    exact ⟨_, _, deny_execution_ok_conv origin max_weight ps instructions
      properties hok⟩
  · intro ⟨i', pr', hq⟩
    exact (deny_execution_ok_aux origin max_weight ps instructions properties
      i' pr' hq).1

/-- Witness for C2: chain `[denyOkMutate, denyOverweight, denyOkPlain]` — the
first policy accepts (mutating the state), the second denies with
`Overweight ⟨9, 9⟩`, which is returned verbatim; the third policy is never
evaluated (exactly 2 trace entries). -/
theorem deny_execution_chain_spec_witness :
    runAllAccepting [denyOkMutate] 0 [7, 8] w0 pr0 =
      some ([8], ⟨⟨7, 7⟩, none⟩) ∧
    denyOverweight.run 0 [8] w0 ⟨⟨7, 7⟩, none⟩ =
      ⟨Except.error (ProcessMessageError.Overweight ⟨9, 9⟩), [8],
        ⟨⟨7, 7⟩, none⟩⟩ ∧
    ((deny_execution [denyOkMutate, denyOverweight, denyOkPlain] 0 [7, 8] w0
        pr0).result = Except.error (ProcessMessageError.Overweight ⟨9, 9⟩) ∧
      (deny_execution [denyOkMutate, denyOverweight, denyOkPlain] 0 [7, 8] w0
        pr0).trace.length = 2) :=
  ⟨rfl, rfl,
    (deny_execution_chain_spec [denyOkMutate, denyOverweight, denyOkPlain] 0
        [7, 8] w0 pr0).1 [denyOkMutate] [denyOkPlain] denyOverweight [8] [8]
      ⟨⟨7, 7⟩, none⟩ ⟨⟨7, 7⟩, none⟩ (ProcessMessageError.Overweight ⟨9, 9⟩)
      rfl rfl rfl⟩

/-- C9: the denial chain has no transactional isolation — when it returns an
error from policy `p`, the mutations left on the instruction sequence and
`Properties` by the accepting policies before `p` (threaded into `p`'s own
final state) are what the caller observes alongside the error. -/
theorem deny_execution_error_mutation_visible
    (qs rest : List (DenyExecutionPolicy Loc Instr Hash))
    (p : DenyExecutionPolicy Loc Instr Hash) (origin : Loc)
    (instructions instructions' instructions'' : List Instr)
    (max_weight : Weight) (properties properties' properties'' : Properties Hash)
    (e : ProcessMessageError)
    (hq : runAllAccepting qs origin instructions max_weight properties =
      some (instructions', properties'))
    (hp : p.run origin instructions' max_weight properties' =
      ⟨Except.error e, instructions'', properties''⟩) :
    (deny_execution (qs ++ p :: rest) origin instructions max_weight
        properties).instructions = instructions'' ∧
    (deny_execution (qs ++ p :: rest) origin instructions max_weight
        properties).properties = properties'' ∧
    (deny_execution (qs ++ p :: rest) origin instructions max_weight
        properties).result = Except.error e :=
  ⟨(deny_execution_error_aux origin max_weight p rest qs instructions properties
      instructions' properties' e instructions'' properties'' hq hp).2.1,
   (deny_execution_error_aux origin max_weight p rest qs instructions properties
      instructions' properties' e instructions'' properties'' hq hp).2.2.1,
   (deny_execution_error_aux origin max_weight p rest qs instructions properties
      instructions' properties' e instructions'' properties'' hq hp).1⟩

/-- Witness for C9: `denyOkMutate` accepts, dropping instruction index 0 and
setting `weight_credit` to `⟨7, 7⟩`; `denyOverweight` then denies; the caller
sees instructions `[8]` and the mutated `Properties` alongside the error —
nothing is restored. -/
theorem deny_execution_error_mutation_visible_witness :
    runAllAccepting [denyOkMutate] 0 [7, 8] w0 pr0 =
      some ([8], ⟨⟨7, 7⟩, none⟩) ∧
    denyOverweight.run 0 [8] w0 ⟨⟨7, 7⟩, none⟩ =
      ⟨Except.error (ProcessMessageError.Overweight ⟨9, 9⟩), [8],
        ⟨⟨7, 7⟩, none⟩⟩ ∧
    ((deny_execution ([denyOkMutate] ++ denyOverweight :: []) 0 [7, 8] w0
        pr0).instructions = [8] ∧
      (deny_execution ([denyOkMutate] ++ denyOverweight :: []) 0 [7, 8] w0
        pr0).properties = ⟨⟨7, 7⟩, none⟩ ∧
      (deny_execution ([denyOkMutate] ++ denyOverweight :: []) 0 [7, 8] w0
        pr0).result = Except.error (ProcessMessageError.Overweight ⟨9, 9⟩)) :=
  ⟨rfl, rfl,
    deny_execution_error_mutation_visible [denyOkMutate] [] denyOverweight 0
      [7, 8] [8] [8] w0 pr0 ⟨⟨7, 7⟩, none⟩ ⟨⟨7, 7⟩, none⟩
      (ProcessMessageError.Overweight ⟨9, 9⟩) rfl rfl⟩

/-- C3: the suspension chain `is_suspended` evaluates policies in declared
order and returns `true` on the first policy returning `true`, without
evaluating the rest (exactly `qs.length + 1` evaluations, for any `rest`); if
every policy returns `false` it returns `false`, each policy having been
evaluated exactly once (`ps.length` evaluations); the empty chain returns
`false`.  The evaluation counter is faithful instrumentation of
`is_suspended`. -/
theorem is_suspended_chain_spec
    (ps : List (CheckSuspensionPolicy Loc Instr Hash)) (origin : Loc)
    (instruction : List Instr) (max_weight : Weight)
    (properties : Properties Hash) :
    (∀ (qs rest : List (CheckSuspensionPolicy Loc Instr Hash))
       (p : CheckSuspensionPolicy Loc Instr Hash)
       (instruction' instruction'' : List Instr)
       (properties' properties'' : Properties Hash),
       ps = qs ++ p :: rest →
       runAllFalse qs origin instruction max_weight properties =
         some (instruction', properties') →
       p.run origin instruction' max_weight properties' =
         ⟨true, instruction'', properties''⟩ →
       is_suspended ps origin instruction max_weight properties =
         ⟨true, instruction'', properties''⟩ ∧
       (is_suspended_count ps origin instruction max_weight properties).2 =
         qs.length + 1) ∧
    (∀ (instruction' : List Instr) (properties' : Properties Hash),
       runAllFalse ps origin instruction max_weight properties =
         some (instruction', properties') →
       is_suspended ps origin instruction max_weight properties =
         ⟨false, instruction', properties'⟩ ∧
       (is_suspended_count ps origin instruction max_weight properties).2 =
         ps.length) ∧
    (is_suspended ([] : List (CheckSuspensionPolicy Loc Instr Hash)) origin
        instruction max_weight properties = ⟨false, instruction, properties⟩) ∧
    ((is_suspended_count ps origin instruction max_weight properties).1 =
      is_suspended ps origin instruction max_weight properties) := by
  refine ⟨?_, ?_, rfl, is_suspended_count_fst origin max_weight ps instruction
    properties⟩
  · intro qs rest p i' i'' pr' pr'' hps hq hp
    subst hps
    exact is_suspended_true_aux origin max_weight p rest qs instruction
      properties i' pr' i'' pr'' hq hp
  · intro i' pr' hq
    exact is_suspended_false_aux origin max_weight ps instruction properties
      i' pr' hq

/-- Witness for C3: chain `[suspFalse, suspTrue, suspFalse]` — the first policy
answers `false`, the second `true`, the third is never evaluated: the chain
returns `true` after exactly 2 evaluations (the spec's Scenario D). -/
theorem is_suspended_chain_spec_witness :
    runAllFalse [suspFalse] 0 [7, 8] w0 pr0 = some ([7, 8], pr0) ∧
    suspTrue.run 0 [7, 8] w0 pr0 = ⟨true, [7, 8], pr0⟩ ∧
    (is_suspended [suspFalse, suspTrue, suspFalse] 0 [7, 8] w0 pr0 =
        ⟨true, [7, 8], pr0⟩ ∧
      (is_suspended_count [suspFalse, suspTrue, suspFalse] 0 [7, 8] w0
        pr0).2 = 2) :=
  ⟨rfl, rfl,
    (is_suspended_chain_spec [suspFalse, suspTrue, suspFalse] 0 [7, 8] w0
        pr0).1 [suspFalse] [suspFalse] suspTrue [7, 8] [7, 8] pr0 pr0
      rfl rfl rfl⟩

/-- C6: the tracing hook is pure observation — the admission and denial chain
combinators with their trace calls removed (`should_execute_noTrace`,
`deny_execution_noTrace`) compute the same verdict and leave the same final
instruction sequence and `Properties` as the combinators with them present
(the suspension combinator has no trace calls in the source). -/
theorem trace_hook_observational
    (ps : List (ShouldExecutePolicy Loc Instr Hash))
    (ds : List (DenyExecutionPolicy Loc Instr Hash)) (origin : Loc)
    (instructions : List Instr) (max_weight : Weight)
    (properties : Properties Hash) :
    should_execute_noTrace ps origin instructions max_weight properties =
      ⟨(should_execute ps origin instructions max_weight properties).result,
       (should_execute ps origin instructions max_weight
         properties).instructions,
       (should_execute ps origin instructions max_weight
         properties).properties⟩ ∧
    deny_execution_noTrace ds origin instructions max_weight properties =
      ⟨(deny_execution ds origin instructions max_weight properties).result,
       (deny_execution ds origin instructions max_weight
         properties).instructions,
       (deny_execution ds origin instructions max_weight
         properties).properties⟩ :=
  ⟨should_execute_noTrace_eq origin max_weight ps instructions properties,
   deny_execution_noTrace_eq origin max_weight ds instructions properties⟩

/-- C7: every chain evaluation terminates with a definite verdict (the
combinators are total functions) in at most one pass over the policy list: the
number of policy evaluations — trace entries for admission and denial, the
instrumented counter for suspension — is at most the number of configured
policies, and the evaluated policies are exactly an initial prefix of the
declared list, each evaluated once, in order. -/
theorem chain_eval_bounded
    (ps : List (ShouldExecutePolicy Loc Instr Hash))
    (ds : List (DenyExecutionPolicy Loc Instr Hash))
    (ss : List (CheckSuspensionPolicy Loc Instr Hash)) (origin : Loc)
    (instructions : List Instr) (max_weight : Weight)
    (properties : Properties Hash) :
    ((should_execute ps origin instructions max_weight
        properties).trace.length ≤ ps.length ∧
      (should_execute ps origin instructions max_weight properties).trace.map
          TraceEvent.barrier =
        (ps.take (should_execute ps origin instructions max_weight
          properties).trace.length).map ShouldExecutePolicy.name) ∧
    ((deny_execution ds origin instructions max_weight
        properties).trace.length ≤ ds.length ∧
      (deny_execution ds origin instructions max_weight properties).trace.map
          TraceEvent.barrier =
        (ds.take (deny_execution ds origin instructions max_weight
          properties).trace.length).map DenyExecutionPolicy.name) ∧
    ((is_suspended_count ss origin instructions max_weight properties).2 ≤
        ss.length ∧
      (is_suspended_count ss origin instructions max_weight properties).1 =
        is_suspended ss origin instructions max_weight properties) :=
  ⟨⟨should_execute_trace_len_le origin max_weight ps instructions properties,
    should_execute_trace_names origin max_weight ps instructions properties⟩,
   ⟨deny_execution_trace_len_le origin max_weight ds instructions properties,
    deny_execution_trace_names origin max_weight ds instructions properties⟩,
   ⟨is_suspended_count_le origin max_weight ss instructions properties,
    is_suspended_count_fst origin max_weight ss instructions properties⟩⟩

/-- C8: `max_weight` is read-only input: a caller's weight-budget value is
unchanged by invoking any of the three chains (it is passed by value, only the
`instructions` and `properties` locations are written back), and every policy
trial — as recorded by its trace event — is handed the caller's `max_weight`
unchanged. -/
theorem max_weight_read_only
    (ps : List (ShouldExecutePolicy Loc Instr Hash))
    (ds : List (DenyExecutionPolicy Loc Instr Hash))
    (ss : List (CheckSuspensionPolicy Loc Instr Hash))
    (f : CallFrame Loc Instr Hash) :
    (call_should_execute ps f).2.max_weight = f.max_weight ∧
    (call_is_suspended ss f).2.max_weight = f.max_weight ∧
    (call_deny_execution ds f).2.max_weight = f.max_weight ∧
    (∀ ev ∈ (should_execute ps f.origin f.instructions f.max_weight
        f.properties).trace, ev.max_weight = f.max_weight) ∧
    (∀ ev ∈ (deny_execution ds f.origin f.instructions f.max_weight
        f.properties).trace, ev.max_weight = f.max_weight) :=
  ⟨rfl, rfl, rfl,
   fun ev hev => should_execute_trace_weight f.origin f.max_weight ps
     f.instructions f.properties ev hev,
   fun ev hev => deny_execution_trace_weight f.origin f.max_weight ds
     f.instructions f.properties ev hev⟩

/-- Witness for C8: on the concrete frame `frame0`, each call wrapper returns
the weight budget `w0` untouched, and the one trace event `ev0` of the
admission chain `[admitRejectDropHead]` records `w0`. -/
theorem max_weight_read_only_witness :
    (call_should_execute [admitRejectDropHead] frame0).2.max_weight =
      frame0.max_weight ∧
    (call_is_suspended [suspFalse] frame0).2.max_weight = frame0.max_weight ∧
    (call_deny_execution [denyOkMutate] frame0).2.max_weight =
      frame0.max_weight ∧
    ev0 ∈ (should_execute [admitRejectDropHead] frame0.origin
      frame0.instructions frame0.max_weight frame0.properties).trace ∧
    ev0.max_weight = frame0.max_weight :=
  ⟨(max_weight_read_only [admitRejectDropHead] [denyOkMutate] [suspFalse]
      frame0).1,
   (max_weight_read_only [admitRejectDropHead] [denyOkMutate] [suspFalse]
      frame0).2.1,
   (max_weight_read_only [admitRejectDropHead] [denyOkMutate] [suspFalse]
      frame0).2.2.1,
   by decide,
   (max_weight_read_only [admitRejectDropHead] [denyOkMutate] [suspFalse]
      frame0).2.2.2.1 ev0 (by decide)⟩

/-- C10: on the empty tuple of policies, the admission chain returns
`Err(Unsupported)`, the suspension chain `false`, and the denial chain
`Ok(())`, in every case leaving the instruction sequence and `Properties`
exactly unchanged (and emitting no trace events). -/
theorem empty_chain_behavior (origin : Loc) (instructions : List Instr)
    (max_weight : Weight) (properties : Properties Hash) :
    should_execute ([] : List (ShouldExecutePolicy Loc Instr Hash)) origin
        instructions max_weight properties =
      ⟨Except.error ProcessMessageError.Unsupported, instructions, properties,
        []⟩ ∧
    is_suspended ([] : List (CheckSuspensionPolicy Loc Instr Hash)) origin
        instructions max_weight properties = ⟨false, instructions, properties⟩ ∧
    deny_execution ([] : List (DenyExecutionPolicy Loc Instr Hash)) origin
        instructions max_weight properties =
      ⟨Except.ok (), instructions, properties, []⟩ :=
  ⟨rfl, rfl, rfl⟩

end Claims
